import Mathlib

/-!
Verification of `ax/core/observation.py`.

This file gives a shallow embedding of the observation module and proves the
specification claims against it.

Modelling choices, stated once here:

* Python dictionaries (`TParameterization` parameter mappings) are embedded as
  insertion-ordered association lists with no duplicate keys (`Dict`), the
  invariant every Python `dict` maintains.  `Dict.set` is item assignment
  (`d[k] = v`: overwrite in place, else append), `Dict.update` is
  `dict.update` (iterate the other dict's items in order).
* Object identity and in-place mutation are made explicit with a small heap:
  every parameter dictionary lives at an address (`Addr`) in a `Heap`, and the
  structures that hold a dictionary (`Arm`, `ObservationFeatures`) hold its
  address.  `dict.copy()` / `deepcopy` allocate a fresh address; passing a
  dict without copying shares the address.
* Machine numbers: `np.int64` trial indices and random splits are embedded as
  `Int`, `pd.Timestamp` as `Int`, and the float `mean` / `sem` columns as `ℚ`
  (the claims are about the structure of the arithmetic, not float rounding).
* `np.ndarray`: a 1-d array is a `List ℚ` whose shape is its length; a 2-d
  array is a `Mat2`, rows plus an explicit column count, so that the numpy
  shape metadata `(nrows, ncols)` is carried exactly.
* Fallible Python code (KeyError on a missing arm, TypeError on a missing
  required argument, ValueError on a shape mismatch) is embedded with
  `Except`.
* The `fidelities` column of a data frame holds a JSON-serialized mapping;
  the embedding stores the decoded mapping itself in the column, i.e.
  `json.loads` is the identity on the well-formed encodings the claims are
  about (no claim concerns malformed encodings).
-/

/-- A parameter value: the closed variant of values a parameterization may
hold (numeric, boolean, or string), per the data model. -/
inductive PVal where
  | int (n : Int)
  | float (q : ℚ)
  | bool (b : Bool)
  | str (s : String)
deriving DecidableEq

/-- A Python `dict` from parameter names to values: an insertion-ordered
association list.  Python guarantees no duplicate keys. -/
abbrev Dict := List (String × PVal)

/-- A heap address for one dictionary object. -/
abbrev Addr := Nat

namespace Dict

/-- Python item assignment `d[k] = v`: overwrite the entry for `k` in place
(keeping its position) if present, else append `(k, v)`. -/
def set : Dict → String → PVal → Dict
  | [], k, v => [(k, v)]
  | kv :: rest, k, v => if kv.1 = k then (k, v) :: rest else kv :: set rest k v

/-- Python `d.update(other)`: assign every item of `other` into `d`, in
`other`'s iteration (insertion) order. -/
def update (d : Dict) : Dict → Dict
  | [] => d
  | kv :: rest => update (set d kv.1 kv.2) rest

/-- Python `d[k]` / `d.get(k)`: the value stored for key `k`. -/
def lookup : Dict → String → Option PVal
  | [], _ => none
  | kv :: rest, k => if kv.1 = k then some kv.2 else lookup rest k

/-- Python `d.keys()` in insertion order. -/
def keys (d : Dict) : List String := d.map Prod.fst

theorem lookup_set_self (d : Dict) (k : String) (v : PVal) :
    (d.set k v).lookup k = some v := by
  induction d with
  | nil => simp [set, lookup]
  | cons kv rest ih =>
    by_cases hk : kv.1 = k
    · simp [set, hk, lookup]
    · simp [set, hk, lookup, ih]

theorem lookup_set_ne (d : Dict) (k : String) (v : PVal) (k' : String)
    (h : k' ≠ k) : (d.set k v).lookup k' = d.lookup k' := by
  induction d with
  | nil => simp [set, lookup, Ne.symm h]
  | cons kv rest ih =>
    by_cases hk : kv.1 = k
    · subst hk
      simp only [set, if_pos rfl, lookup]
      rw [if_neg (Ne.symm h), if_neg (Ne.symm h)]
    · simp only [set, if_neg hk, lookup, ih]

theorem mem_keys_set (d : Dict) (k0 : String) (v0 : PVal) (k : String)
    (h : k ∈ d.keys) : k ∈ (d.set k0 v0).keys := by
  induction d with
  | nil => cases h
  | cons kv rest ih =>
    rw [set]
    by_cases hk : kv.1 = k0
    · rw [if_pos hk]
      rcases List.mem_cons.mp h with h1 | h1
      · exact List.mem_cons.mpr (Or.inl (h1.trans hk))
      · exact List.mem_cons.mpr (Or.inr h1)
    · rw [if_neg hk]
      rcases List.mem_cons.mp h with h1 | h1
      · exact List.mem_cons.mpr (Or.inl h1)
      · exact List.mem_cons.mpr (Or.inr (ih h1))

theorem lookup_update_not_mem (b : Dict) :
    ∀ (d : Dict) (k : String), k ∉ b.keys →
      (d.update b).lookup k = d.lookup k := by
  induction b with
  | nil => intro d k _; rfl
  | cons kv rest ih =>
    intro d k hk
    simp only [keys, List.map_cons, List.mem_cons, not_or] at hk
    rw [update, ih _ _ (by simpa [keys] using hk.2),
      lookup_set_ne _ _ _ _ hk.1]

theorem lookup_update_mem (b : Dict) :
    ∀ (d : Dict) (k : String) (v : PVal), b.keys.Nodup → (k, v) ∈ b →
      (d.update b).lookup k = some v := by
  induction b with
  | nil => intro d k v _ hm; simp at hm
  | cons kv rest ih =>
    intro d k v hnd hm
    simp only [keys, List.map_cons, List.nodup_cons] at hnd
    rcases List.mem_cons.mp hm with h | h
    · subst h
      rw [update, lookup_update_not_mem rest _ _ (by simpa [keys] using hnd.1),
        lookup_set_self]
    · exact ih _ _ _ (by simpa [keys] using hnd.2) h

theorem mem_keys_update (b : Dict) :
    ∀ (d : Dict) (k : String), k ∈ d.keys → k ∈ (d.update b).keys := by
  induction b with
  | nil => intro d k h; exact h
  | cons kv rest ih =>
    intro d k h
    exact ih _ _ (mem_keys_set _ _ _ _ h)

end Dict

/-- The store of live dictionary objects: address `a` holds `cells[a]`.
Fresh objects are appended. -/
structure Heap where
  cells : List Dict
deriving DecidableEq

namespace Heap

/-- Read the dictionary object at address `a` (a dangling address reads as
the empty dictionary; all addresses the programs produce are valid). -/
def get (h : Heap) (a : Addr) : Dict := (h.cells[a]?).getD []

/-- Mutate the dictionary object at address `a` in place. -/
def set (h : Heap) (a : Addr) (d : Dict) : Heap := ⟨h.cells.set a d⟩

/-- Allocate a fresh dictionary object (`dict.copy()` / `deepcopy` / a new
literal): the new object's address is the old heap size. -/
def alloc (h : Heap) (d : Dict) : Heap × Addr := (⟨h.cells ++ [d]⟩, h.cells.length)

/-- `a` is the address of a live object. -/
def valid (h : Heap) (a : Addr) : Prop := a < h.cells.length

instance (h : Heap) (a : Addr) : Decidable (h.valid a) :=
  inferInstanceAs (Decidable (a < h.cells.length))

theorem length_set (h : Heap) (a : Addr) (d : Dict) :
    (h.set a d).cells.length = h.cells.length := by
  simp [set]

theorem get_set_self (h : Heap) (a : Addr) (d : Dict) (hv : h.valid a) :
    (h.set a d).get a = d := by
  simp [set, get, List.getElem?_set_self hv]

theorem get_set_ne (h : Heap) (a : Addr) (d : Dict) (b : Addr) (hne : b ≠ a) :
    (h.set a d).get b = h.get b := by
  simp [set, get, List.getElem?_set_ne (Ne.symm hne)]

theorem get_alloc_new (h : Heap) (d : Dict) :
    (h.alloc d).1.get (h.alloc d).2 = d := by
  simp [alloc, get, List.getElem?_concat_length]

theorem get_alloc_old (h : Heap) (d : Dict) (a : Addr) (ha : h.valid a) :
    (h.alloc d).1.get a = h.get a := by
  simp [alloc, get, List.getElem?_append_left ha]

theorem length_alloc (h : Heap) (d : Dict) :
    (h.alloc d).1.cells.length = h.cells.length + 1 := by
  simp [alloc]

theorem valid_of_get_ne (h : Heap) (a : Addr) (hne : h.get a ≠ []) :
    h.valid a := by
  by_contra hv
  apply hne
  have hlen : h.cells.length ≤ a := Nat.le_of_not_lt hv
  simp [get, List.getElem?_eq_none hlen]

end Heap

/-- An arm of the experiment: `ax.core.arm.Arm`.

Modelled from the spec: `ax/core/arm.py` is not under `src/`.  Per the spec,
the experiment/arm registry "owns canonical parameter values" and exposes
"lookup by arm name → parameter mapping", and "parameters are copied per
observation" by the observation layer itself (`observations_from_data` calls
`.parameters.copy()` in the source under `src/`).  Accordingly an arm owns
its parameter dictionary and `arm.parameters` is plain attribute access to
that owned object, not a copy. -/
structure Arm where
  parameters : Addr
deriving DecidableEq

/-- `ObservationFeatures`: arm parameters (a reference to a mutable
dictionary object) plus the optional context fields. -/
structure ObservationFeatures where
  parameters : Addr
  trial_index : Option Int
  start_time : Option Int
  end_time : Option Int
  random_split : Option Int
deriving DecidableEq

namespace ObservationFeatures

/-- `ObservationFeatures.from_arm`: builds the features with
`parameters=arm.parameters` (no copy is taken in the source) and the
supplied context values. -/
def from_arm (arm : Arm) (trial_index : Option Int) (start_time : Option Int)
    (end_time : Option Int) (random_split : Option Int) : ObservationFeatures :=
  { parameters := arm.parameters
    trial_index := trial_index
    start_time := start_time
    end_time := end_time
    random_split := random_split }

/-- `ObservationFeatures.update_features`: `self.parameters.update(...)`
mutates the dictionary object `self.parameters` refers to in place, and each
context attribute of `self` is overwritten exactly when the new value is not
`None`.  The source returns `self`; the embedding returns the post-state of
`self` (same `parameters` address, updated context attributes) together with
the mutated heap. -/
def update_features (h : Heap) (self new_features : ObservationFeatures) :
    Heap × ObservationFeatures :=
  let h1 := h.set self.parameters
    ((h.get self.parameters).update (h.get new_features.parameters))
  (h1,
    { parameters := self.parameters
      trial_index := match new_features.trial_index with
        | some v => some v
        | none => self.trial_index
      start_time := match new_features.start_time with
        | some v => some v
        | none => self.start_time
      end_time := match new_features.end_time with
        | some v => some v
        | none => self.end_time
      random_split := match new_features.random_split with
        | some v => some v
        | none => self.random_split })

end ObservationFeatures

/-- Key order used by `json.dumps(..., sort_keys=True)`: compare entries by
their key. -/
def keyLe (x y : String × PVal) : Prop := x.1 ≤ y.1

instance : DecidableRel keyLe :=
  fun x y => inferInstanceAs (Decidable (x.1 ≤ y.1))

instance : IsTotal (String × PVal) keyLe := ⟨fun x y => le_total x.1 y.1⟩

instance : IsTrans (String × PVal) keyLe := ⟨fun _ _ _ h1 h2 => le_trans h1 h2⟩

/-- Strict key order, used to show the sorted form of a duplicate-free
dictionary is unique. -/
def keyLt (x y : String × PVal) : Prop := x.1 < y.1

instance : IsAntisymm (String × PVal) keyLt :=
  ⟨fun x _ h1 h2 => absurd (lt_trans h1 h2) (lt_irrefl x.1)⟩

/-- The canonical (sorted-by-key) form of a parameter dictionary, as produced
by `json.dumps(parameters, sort_keys=True)` in `ObservationFeatures.__hash__`.
The numeric-subtype coercion step of `__hash__` (`np.int64 → int`,
`np.float32 → float`) is the identity here because `PVal` is already the
closed int/float/bool/str variant. -/
def sortParams (d : Dict) : Dict := List.insertionSort keyLe d

/-- The tuple `ObservationFeatures.__hash__` feeds to Python's `hash`:
the canonicalized serialization of the parameters together with the four
context fields.  Python's `hash` maps equal tuples to equal values, so two
feature objects with equal `ofHashKey` hash identically. -/
def ofHashKey (h : Heap) (o : ObservationFeatures) :
    Dict × Option Int × Option Int × Option Int × Option Int :=
  (sortParams (h.get o.parameters), o.trial_index, o.start_time, o.end_time,
    o.random_split)

/-- Equality of two feature objects.

Modelled from the spec: `__eq__` comes from `ax.core.base.Base`, which is not
under `src/`.  Per the spec invariant, "two Feature Points are equal (and
hash-equal) iff their canonicalized parameter mapping and all four context
fields are equal". -/
def ofEqual (h : Heap) (a b : ObservationFeatures) : Prop :=
  sortParams (h.get a.parameters) = sortParams (h.get b.parameters)
  ∧ a.trial_index = b.trial_index ∧ a.start_time = b.start_time
  ∧ a.end_time = b.end_time ∧ a.random_split = b.random_split

/-- A 2-d `np.ndarray` of rationals: the rows together with the column count
recorded in the array's shape metadata. -/
structure Mat2 where
  rows : List (List ℚ)
  ncols : Nat
deriving DecidableEq

namespace Mat2

/-- `array.shape` for a 2-d array. -/
def shape (m : Mat2) : Nat × Nat := (m.rows.length, m.ncols)

/-- `array[i][j]` (0 when out of range; claims only read in-range entries). -/
def entry (m : Mat2) (i j : Nat) : ℚ := (((m.rows[i]?).getD [])[j]?).getD 0

end Mat2

/-- `np.diag(v)`: the square matrix with `v` on the diagonal and zero
elsewhere. -/
def npDiag (v : List ℚ) : Mat2 :=
  { rows := (List.range v.length).map (fun i =>
      (List.range v.length).map (fun j => if i = j then (v[i]?).getD 0 else 0))
    ncols := v.length }

/-- The `ValueError`s raised by `ObservationData.__init__`: which array
failed, with the expected and the actual shape. -/
inductive ShapeErr where
  | meansShape (expected actual : Nat)
  | covShape (expected actual : Nat × Nat)
deriving DecidableEq

/-- `ObservationData`: metric names with aligned means and covariance. -/
structure ObservationData where
  metric_names : List String
  means : List ℚ
  covariance : Mat2
deriving DecidableEq

/-- `ObservationData.__init__`: with `k = len(metric_names)`, raise unless
`means.shape == (k,)` and `covariance.shape == (k, k)`. -/
def mkObservationData (metric_names : List String) (means : List ℚ)
    (covariance : Mat2) : Except ShapeErr ObservationData :=
  let k := metric_names.length
  if means.length ≠ k then .error (.meansShape k means.length)
  else if covariance.shape ≠ (k, k) then
    .error (.covShape (k, k) covariance.shape)
  else .ok ⟨metric_names, means, covariance⟩

/-- `Observation`: features, data, and the optional arm name. -/
structure Observation where
  features : ObservationFeatures
  data : ObservationData
  arm_name : Option String
deriving DecidableEq

theorem npDiag_shape (v : List ℚ) : (npDiag v).shape = (v.length, v.length) := by
  simp [npDiag, Mat2.shape]

theorem npDiag_entry (v : List ℚ) (i j : Nat) (hi : i < v.length)
    (hj : j < v.length) :
    (npDiag v).entry i j = if i = j then (v[i]?).getD 0 else 0 := by
  simp [npDiag, Mat2.entry, List.getElem?_map, List.getElem?_range hi,
    List.getElem?_range hj]

/-- One row of the measurement data frame.  The columns
`arm_name`, `metric_name`, `mean`, `sem` are always present; the value a row
carries in an optional column is only meaningful when the `Table` says that
column is present.  A `fidelities` cell holds the decoded serialized mapping
(see the module comment). -/
structure Row where
  arm_name : String
  trial_index : Int
  start_time : Int
  end_time : Int
  random_split : Int
  fidelities : Dict
  metric_name : String
  mean : ℚ
  sem : ℚ
deriving DecidableEq

/-- The measurement data frame: which optional columns are present, plus the
rows.  (`data.df` in the source; column presence is a property of the whole
frame.) -/
structure Table where
  has_trial_index : Bool
  has_start_time : Bool
  has_end_time : Bool
  has_random_split : Bool
  has_fidelities : Bool
  rows : List Row
deriving DecidableEq

/-- The value tuple of the active identifying columns for one group
(`dict(zip(feature_cols, g))` in the source): a column absent from the frame
contributes `none`. -/
structure GroupKey where
  arm_name : String
  trial_index : Option Int
  start_time : Option Int
  end_time : Option Int
  random_split : Option Int
  fidelities : Option Dict
deriving DecidableEq

/-- The group key of a row: the row's values in the active identifying
columns, i.e. in the intersection of
`{arm_name, trial_index, start_time, end_time, random_split, fidelities}`
with the frame's columns. -/
def rowKey (t : Table) (r : Row) : GroupKey :=
  { arm_name := r.arm_name
    trial_index := if t.has_trial_index then some r.trial_index else none
    start_time := if t.has_start_time then some r.start_time else none
    end_time := if t.has_end_time then some r.end_time else none
    random_split := if t.has_random_split then some r.random_split else none
    fidelities := if t.has_fidelities then some r.fidelities else none }

/-- The distinct elements of a list, first occurrence first.  (The order the
groups are iterated in is implementation-defined in the source — pandas sorts
group keys — and no claim depends on it; the partition is the same.) -/
def uniqueKeys {α : Type} [DecidableEq α] : List α → List α
  | [] => []
  | a :: rest => a :: (uniqueKeys rest).filter (fun b => b ≠ a)

/-- `data.df.groupby(by=feature_cols)`: one group per distinct key, holding
all rows with that key in their original order. -/
def groupby (t : Table) : List (GroupKey × List Row) :=
  (uniqueKeys (t.rows.map (rowKey t))).map
    (fun k => (k, t.rows.filter (fun r => rowKey t r = k)))

/-- The exceptions `observations_from_data` can raise: a `KeyError` from
`experiment.arms_by_name[...]`, the `TypeError` from calling
`ObservationFeatures(**obs_kwargs)` without its required `parameters`
argument, or a `ValueError` from `ObservationData.__init__`. -/
inductive ConvErr where
  | unknownArm (name : String)
  | missingParameters
  | shape (e : ShapeErr)
deriving DecidableEq

/-- The experiment, reduced to what the source reads: `arms_by_name`. -/
structure Experiment where
  arms_by_name : List (String × Arm)

/-- The `obs_kwargs` dictionary built for one group. -/
structure ObsKwargs where
  parameters : Option Addr
  trial_index : Option Int
  start_time : Option Int
  end_time : Option Int
  random_split : Option Int

/-- Calling `ObservationFeatures(**obs_kwargs)`: `parameters` is a required
positional argument with no default, so its absence from `obs_kwargs` raises
`TypeError`. -/
def ObservationFeatures.ofKwargs : ObsKwargs → Except ConvErr ObservationFeatures
  | ⟨none, _, _, _, _⟩ => .error .missingParameters
  | ⟨some p, ti, st, en, rs⟩ => .ok ⟨p, ti, st, en, rs⟩

/-- The body of the `for g, d in data.df.groupby(...)` loop for one group
with key `k` and rows `rows`:

* look up the arm (KeyError propagates),
* `obs_parameters = ....parameters.copy()` — allocate a fresh copy,
* `if obs_parameters: obs_kwargs["parameters"] = obs_parameters` — the key
  is only put into `obs_kwargs` when the copied dictionary is non-empty,
* the four context fields are taken from the group key (absent → `None`),
* fidelity overrides are written into the (already referenced) copy,
* `ObservationFeatures(**obs_kwargs)` and `ObservationData(...)` are built,
  with the diagonal covariance `np.diag(sem ** 2)`. -/
def processGroup (e : Experiment) (h : Heap) (k : GroupKey) (rows : List Row) :
    Except ConvErr (Heap × Observation) :=
  match (e.arms_by_name).lookup k.arm_name with
  | none => .error (.unknownArm k.arm_name)
  | some arm =>
    let base := h.get arm.parameters
    let h1 := (h.alloc base).1
    let aAddr := (h.alloc base).2
    let kw : ObsKwargs :=
      { parameters := if base = [] then none else some aAddr
        trial_index := k.trial_index
        start_time := k.start_time
        end_time := k.end_time
        random_split := k.random_split }
    let h2 := match k.fidelities with
      | some fd => h1.set aAddr ((h1.get aAddr).update fd)
      | none => h1
    match ObservationFeatures.ofKwargs kw with
    | .error er => .error er
    | .ok feats =>
      match mkObservationData (rows.map (fun r => r.metric_name))
          (rows.map (fun r => r.mean))
          (npDiag (rows.map (fun r => r.sem * r.sem))) with
      | .error se => .error (.shape se)
      | .ok od => .ok (h2, ⟨feats, od, some k.arm_name⟩)

/-- The group loop: process groups left to right, threading the heap;
the first exception aborts the whole conversion. -/
def processGroups (e : Experiment) :
    Heap → List (GroupKey × List Row) → Except ConvErr (Heap × List Observation)
  | h, [] => .ok (h, [])
  | h, kg :: rest =>
    match processGroup e h kg.1 kg.2 with
    | .error er => .error er
    | .ok (h1, o) =>
      match processGroups e h1 rest with
      | .error er => .error er
      | .ok (h2, os) => .ok (h2, o :: os)

/-- `observations_from_data(experiment, data)`. -/
def observations_from_data (e : Experiment) (h : Heap) (t : Table) :
    Except ConvErr (Heap × List Observation) :=
  processGroups e h (groupby t)

/-- `deepcopy(obs.features)`: a fresh features object whose parameter
dictionary is a fresh object with equal contents. -/
def deepcopyFeatures (h : Heap) (o : Observation) : Heap × ObservationFeatures :=
  ((h.alloc (h.get o.features.parameters)).1,
    { o.features with parameters := (h.alloc (h.get o.features.parameters)).2 })

/-- `[deepcopy(obs.features) for obs in observations]`. -/
def deepcopyAllFeatures (h : Heap) :
    List Observation → Heap × List ObservationFeatures
  | [] => (h, [])
  | o :: rest =>
    match deepcopyFeatures h o with
    | (h1, f) =>
      match deepcopyAllFeatures h1 rest with
      | (h2, fs) => (h2, f :: fs)

/-- `separate_observations(observations, copy)`.  An `ObservationData` holds
no reference into the dictionary heap in this embedding (its arrays are not
touched by any mutator modelled here), so its deep copy is the value itself;
the features' deep copy allocates a fresh parameter dictionary. -/
def separate_observations (h : Heap) (observations : List Observation)
    (copy : Bool) : Heap × List ObservationFeatures × List ObservationData :=
  if copy then
    match deepcopyAllFeatures h observations with
    | (h1, fs) => (h1, fs, observations.map (fun o => o.data))
  else
    (h, observations.map (fun o => o.features),
      observations.map (fun o => o.data))

theorem mem_uniqueKeys {α : Type} [DecidableEq α] (l : List α) (a : α) :
    a ∈ uniqueKeys l ↔ a ∈ l := by
  induction l with
  | nil => simp [uniqueKeys]
  | cons b rest ih =>
    simp only [uniqueKeys, List.mem_cons, List.mem_filter, decide_eq_true_eq]
    constructor
    · rintro (rfl | ⟨h1, _⟩)
      · exact Or.inl rfl
      · exact Or.inr (ih.mp h1)
    · rintro (rfl | h1)
      · exact Or.inl rfl
      · by_cases hab : a = b
        · exact Or.inl hab
        · exact Or.inr ⟨ih.mpr h1, hab⟩

theorem nodup_uniqueKeys {α : Type} [DecidableEq α] (l : List α) :
    (uniqueKeys l).Nodup := by
  induction l with
  | nil => simp [uniqueKeys]
  | cons b rest ih =>
    simp only [uniqueKeys, List.nodup_cons]
    refine ⟨?_, ih.filter _⟩
    intro hmem
    have h2 := (List.mem_filter.mp hmem).2
    simp at h2

theorem length_uniqueKeys {α : Type} [DecidableEq α] (l : List α) :
    (uniqueKeys l).length = l.toFinset.card := by
  have h1 : (uniqueKeys l).toFinset = l.toFinset := by
    ext a
    simp [List.mem_toFinset, mem_uniqueKeys]
  rw [← h1, List.toFinset_card_of_nodup (nodup_uniqueKeys l)]

theorem groupby_key_mem (t : Table) (kg : GroupKey × List Row)
    (h : kg ∈ groupby t) :
    (∃ r ∈ t.rows, rowKey t r = kg.1)
    ∧ kg.2 = t.rows.filter (fun r => rowKey t r = kg.1) := by
  simp only [groupby, List.mem_map] at h
  obtain ⟨k, hk, rfl⟩ := h
  refine ⟨?_, rfl⟩
  have h2 := (mem_uniqueKeys _ _).mp hk
  simpa [List.mem_map] using h2

theorem groupby_covers (t : Table) (r : Row) (hr : r ∈ t.rows) :
    ∃ kg ∈ groupby t, kg.1 = rowKey t r ∧ r ∈ kg.2 := by
  refine ⟨(rowKey t r, t.rows.filter (fun r2 => rowKey t r2 = rowKey t r)),
    ?_, rfl, ?_⟩
  · simp only [groupby, List.mem_map]
    exact ⟨rowKey t r, (mem_uniqueKeys _ _).mpr (List.mem_map_of_mem _ hr), rfl⟩
  · simp [List.mem_filter, hr]

theorem length_groupby (t : Table) :
    (groupby t).length = (t.rows.map (rowKey t)).toFinset.card := by
  simp [groupby, length_uniqueKeys]

theorem mkObservationData_group_ok (rs : List Row) :
    mkObservationData (rs.map (fun r => r.metric_name))
        (rs.map (fun r => r.mean)) (npDiag (rs.map (fun r => r.sem * r.sem)))
      = .ok ⟨rs.map (fun r => r.metric_name), rs.map (fun r => r.mean),
          npDiag (rs.map (fun r => r.sem * r.sem))⟩ := by
  simp [mkObservationData, npDiag, Mat2.shape]

theorem processGroup_eq (e : Experiment) (h : Heap) (k : GroupKey)
    (rs : List Row) (arm : Arm)
    (hl : (e.arms_by_name).lookup k.arm_name = some arm)
    (hb : h.get arm.parameters ≠ []) :
    processGroup e h k rs = .ok
      ((match k.fidelities with
        | some fd => (⟨h.cells ++ [h.get arm.parameters]⟩ : Heap).set
            h.cells.length
            (((⟨h.cells ++ [h.get arm.parameters]⟩ : Heap).get
                h.cells.length).update fd)
        | none => (⟨h.cells ++ [h.get arm.parameters]⟩ : Heap)),
       ⟨⟨h.cells.length, k.trial_index, k.start_time,
          k.end_time, k.random_split⟩,
        ⟨rs.map (fun r => r.metric_name), rs.map (fun r => r.mean),
          npDiag (rs.map (fun r => r.sem * r.sem))⟩,
        some k.arm_name⟩) := by
  simp only [processGroup, hl, if_neg hb, mkObservationData_group_ok,
    ObservationFeatures.ofKwargs, Heap.alloc]

theorem processGroup_ok (e : Experiment) (h : Heap) (k : GroupKey)
    (rs : List Row) (arm : Arm)
    (hl : (e.arms_by_name).lookup k.arm_name = some arm)
    (hb : h.get arm.parameters ≠ []) :
    ∃ h2 o, processGroup e h k rs = .ok (h2, o)
      ∧ h2.cells.length = h.cells.length + 1
      ∧ (∀ a, a < h.cells.length → h2.get a = h.get a)
      ∧ o.features.parameters = h.cells.length
      ∧ h2.get h.cells.length
          = (h.get arm.parameters).update (k.fidelities.getD [])
      ∧ o.features.trial_index = k.trial_index
      ∧ o.features.start_time = k.start_time
      ∧ o.features.end_time = k.end_time
      ∧ o.features.random_split = k.random_split
      ∧ o.arm_name = some k.arm_name
      ∧ o.data.metric_names = rs.map (fun r => r.metric_name)
      ∧ o.data.means = rs.map (fun r => r.mean)
      ∧ o.data.covariance = npDiag (rs.map (fun r => r.sem * r.sem)) := by
  have heq := processGroup_eq e h k rs arm hl hb
  have hvnew : (⟨h.cells ++ [h.get arm.parameters]⟩ : Heap).valid
      h.cells.length := by
    simp [Heap.valid]
  have hgnew : (⟨h.cells ++ [h.get arm.parameters]⟩ : Heap).get h.cells.length
      = h.get arm.parameters := by
    simp [Heap.get, List.getElem?_concat_length]
  have hgold : ∀ a, a < h.cells.length →
      (⟨h.cells ++ [h.get arm.parameters]⟩ : Heap).get a = h.get a := by
    intro a ha
    simp [Heap.get, List.getElem?_append_left ha]
  cases hfd : k.fidelities with
  | none =>
    rw [hfd] at heq
    refine ⟨_, _, heq, ?_, ?_, rfl, ?_, rfl, rfl, rfl, rfl, rfl, rfl, rfl, rfl⟩
    · simp
    · intro a ha
      exact hgold a ha
    · rw [hgnew]
      rfl
  | some fd =>
    rw [hfd] at heq
    refine ⟨_, _, heq, ?_, ?_, rfl, ?_, rfl, rfl, rfl, rfl, rfl, rfl, rfl, rfl⟩
    · rw [Heap.length_set]
      simp
    · intro a ha
      rw [Heap.get_set_ne _ _ _ _ (Nat.ne_of_lt ha)]
      exact hgold a ha
    · rw [Heap.get_set_self _ _ _ hvnew, hgnew]
      rfl

/-- What the group loop establishes between one group and the observation it
emits: `h` is the heap the whole loop started from, `hFin` the heap it ends
in.  The observation's parameter dictionary is the arm's dictionary as of the
start, updated with the group's fidelity overrides (if any). -/
def GroupObsRel (e : Experiment) (h hFin : Heap) (kg : GroupKey × List Row)
    (o : Observation) : Prop :=
  o.arm_name = some (kg.1).arm_name
  ∧ o.features.trial_index = (kg.1).trial_index
  ∧ o.features.start_time = (kg.1).start_time
  ∧ o.features.end_time = (kg.1).end_time
  ∧ o.features.random_split = (kg.1).random_split
  ∧ (∃ arm, (e.arms_by_name).lookup (kg.1).arm_name = some arm
      ∧ hFin.get o.features.parameters
          = (h.get arm.parameters).update ((kg.1).fidelities.getD []))
  ∧ o.data.metric_names = (kg.2).map (fun r => r.metric_name)
  ∧ o.data.means = (kg.2).map (fun r => r.mean)
  ∧ o.data.covariance = npDiag ((kg.2).map (fun r => r.sem * r.sem))

theorem groupObsRel_heap_mono (e : Experiment) (h h2 hFin : Heap)
    (hpres : ∀ a, a < h.cells.length → h2.get a = h.get a) :
    ∀ (gs : List (GroupKey × List Row)) (obs : List Observation),
    (∀ kg ∈ gs, ∃ arm, (e.arms_by_name).lookup (kg.1).arm_name = some arm
        ∧ h.get arm.parameters ≠ []) →
    List.Forall₂ (GroupObsRel e h2 hFin) gs obs →
    List.Forall₂ (GroupObsRel e h hFin) gs obs := by
  intro gs
  induction gs with
  | nil =>
    intro obs _ hf
    cases hf
    exact List.Forall₂.nil
  | cons kg rest ih =>
    intro obs H hf
    cases hf with
    | cons hrel hrest =>
      refine List.Forall₂.cons ?_
        (ih _ (fun kg2 hm => H kg2 (List.mem_cons_of_mem _ hm)) hrest)
      obtain ⟨han, hti, hst, hen, hrs, ⟨arm, hlook, hcontent⟩, hmn, hms, hcov⟩ :=
        hrel
      obtain ⟨arm0, hlook0, hb0⟩ := H kg (List.mem_cons_self _ _)
      have harm : arm0 = arm := by
        have h3 := hlook0.symm.trans hlook
        injection h3
      subst harm
      refine ⟨han, hti, hst, hen, hrs, ⟨arm0, hlook, ?_⟩, hmn, hms, hcov⟩
      rw [hcontent, hpres _ (Heap.valid_of_get_ne h _ hb0)]

theorem processGroups_ok (e : Experiment) :
    ∀ (gs : List (GroupKey × List Row)) (h : Heap),
    (∀ kg ∈ gs, ∃ arm, (e.arms_by_name).lookup (kg.1).arm_name = some arm
        ∧ h.get arm.parameters ≠ []) →
    ∃ h' obs, processGroups e h gs = .ok (h', obs)
      ∧ h.cells.length ≤ h'.cells.length
      ∧ (∀ a, a < h.cells.length → h'.get a = h.get a)
      ∧ obs.length = gs.length
      ∧ (∀ o ∈ obs, h.cells.length ≤ o.features.parameters
          ∧ o.features.parameters < h'.cells.length)
      ∧ List.Pairwise (fun o1 o2 =>
          o1.features.parameters < o2.features.parameters) obs
      ∧ List.Forall₂ (GroupObsRel e h h') gs obs := by
  intro gs
  induction gs with
  | nil =>
    intro h _
    exact ⟨h, [], rfl, le_refl _, fun a _ => rfl, rfl, by simp,
      List.Pairwise.nil, List.Forall₂.nil⟩
  | cons kg rest ih =>
    intro h H
    obtain ⟨arm, hl, hb⟩ := H kg (List.mem_cons_self _ _)
    obtain ⟨h2, o, heq, hlen2, hpres2, haddr, hcontent, hti, hst, hen, hrs,
      han, hmn, hms, hcov⟩ := processGroup_ok e h kg.1 kg.2 arm hl hb
    have H2 : ∀ kg2 ∈ rest, ∃ arm2,
        (e.arms_by_name).lookup (kg2.1).arm_name = some arm2
        ∧ h2.get arm2.parameters ≠ [] := by
      intro kg2 hm
      obtain ⟨arm2, hl2, hb2⟩ := H kg2 (List.mem_cons_of_mem _ hm)
      refine ⟨arm2, hl2, ?_⟩
      rw [hpres2 _ (Heap.valid_of_get_ne h _ hb2)]
      exact hb2
    obtain ⟨h', obs, heq', hle', hpres', hlen', hbounds', hpair', hf'⟩ :=
      ih h2 H2
    have hlt : h.cells.length < h2.cells.length := by
      rw [hlen2]
      exact Nat.lt_succ_self _
    refine ⟨h', o :: obs, ?_, ?_, ?_, ?_, ?_, ?_, ?_⟩
    · simp only [processGroups, heq, heq']
    · exact le_trans (le_of_lt hlt) hle'
    · intro a ha
      rw [hpres' a (lt_trans ha hlt), hpres2 a ha]
    · simp [hlen']
    · intro o2 hm
      rcases List.mem_cons.mp hm with rfl | hm2
      · rw [haddr]
        exact ⟨le_refl _, lt_of_lt_of_le hlt hle'⟩
      · obtain ⟨hb1, hb2⟩ := hbounds' o2 hm2
        exact ⟨le_trans (le_of_lt hlt) hb1, hb2⟩
    · rw [List.pairwise_cons]
      refine ⟨?_, hpair'⟩
      intro o2 hm2
      have hlow := (hbounds' o2 hm2).1
      rw [haddr]
      exact lt_of_lt_of_le hlt hlow
    · refine List.Forall₂.cons ?_
        (groupObsRel_heap_mono e h h2 h' hpres2 rest obs
          (fun kg2 hm => H kg2 (List.mem_cons_of_mem _ hm)) hf')
      refine ⟨han, hti, hst, hen, hrs, ⟨arm, hl, ?_⟩, hmn, hms, hcov⟩
      rw [haddr, hpres' _ hlt]
      exact hcontent

theorem processGroups_unknownArm (e : Experiment) :
    ∀ (gs : List (GroupKey × List Row)) (h : Heap),
    (∀ kg ∈ gs, ∀ arm, (e.arms_by_name).lookup (kg.1).arm_name = some arm →
        h.get arm.parameters ≠ []) →
    (∃ kg ∈ gs, (e.arms_by_name).lookup (kg.1).arm_name = none) →
    ∃ nm, processGroups e h gs = .error (.unknownArm nm)
      ∧ (e.arms_by_name).lookup nm = none := by
  intro gs
  induction gs with
  | nil =>
    intro h _ hbad
    obtain ⟨kg, hm, _⟩ := hbad
    cases hm
  | cons kg rest ih =>
    intro h H hbad
    cases hlook : (e.arms_by_name).lookup (kg.1).arm_name with
    | none =>
      refine ⟨(kg.1).arm_name, ?_, hlook⟩
      simp only [processGroups, processGroup, hlook]
    | some arm =>
      have hb := H kg (List.mem_cons_self _ _) arm hlook
      obtain ⟨h2, o, heq, hlen2, hpres2, _⟩ :=
        processGroup_ok e h kg.1 kg.2 arm hlook hb
      have hbad2 : ∃ kg2 ∈ rest,
          (e.arms_by_name).lookup (kg2.1).arm_name = none := by
        obtain ⟨kg2, hm2, hn2⟩ := hbad
        rcases List.mem_cons.mp hm2 with rfl | hm3
        · rw [hlook] at hn2
          cases hn2
        · exact ⟨kg2, hm3, hn2⟩
      have H2 : ∀ kg2 ∈ rest, ∀ arm2,
          (e.arms_by_name).lookup (kg2.1).arm_name = some arm2 →
          h2.get arm2.parameters ≠ [] := by
        intro kg2 hm2 arm2 hl2
        have hb2 := H kg2 (List.mem_cons_of_mem _ hm2) arm2 hl2
        rw [hpres2 _ (Heap.valid_of_get_ne h _ hb2)]
        exact hb2
      obtain ⟨nm, heq2, hn⟩ := ih h2 H2 hbad2
      refine ⟨nm, ?_, hn⟩
      simp only [processGroups, heq, heq2]

theorem forall₂_imp_of_mem {α β : Type} {R S : α → β → Prop} :
    ∀ {l1 : List α} {l2 : List β},
    (∀ a b, a ∈ l1 → R a b → S a b) → List.Forall₂ R l1 l2 →
    List.Forall₂ S l1 l2 := by
  intro l1
  induction l1 with
  | nil =>
    intro l2 _ hf
    cases hf
    exact List.Forall₂.nil
  | cons a rest ih =>
    intro l2 himp hf
    cases hf with
    | cons h1 h2 =>
      exact List.Forall₂.cons (himp _ _ (List.mem_cons_self _ _) h1)
        (ih (fun a2 b2 hm => himp a2 b2 (List.mem_cons_of_mem _ hm)) h2)

theorem deepcopyAllFeatures_ok :
    ∀ (obs : List Observation) (h : Heap),
    (∀ o ∈ obs, h.valid o.features.parameters) →
    ∃ h1 fs, deepcopyAllFeatures h obs = (h1, fs)
      ∧ h.cells.length ≤ h1.cells.length
      ∧ (∀ a, a < h.cells.length → h1.get a = h.get a)
      ∧ fs.length = obs.length
      ∧ (∀ f ∈ fs, h.cells.length ≤ f.parameters
          ∧ f.parameters < h1.cells.length)
      ∧ List.Pairwise (fun f1 f2 => f1.parameters < f2.parameters) fs
      ∧ List.Forall₂ (fun o f =>
          f.trial_index = o.features.trial_index
          ∧ f.start_time = o.features.start_time
          ∧ f.end_time = o.features.end_time
          ∧ f.random_split = o.features.random_split
          ∧ h1.get f.parameters = h.get o.features.parameters) obs fs := by
  intro obs
  induction obs with
  | nil =>
    intro h _
    exact ⟨h, [], rfl, le_refl _, fun a _ => rfl, rfl, by simp,
      List.Pairwise.nil, List.Forall₂.nil⟩
  | cons o rest ih =>
    intro h hv
    have hvo := hv o (List.mem_cons_self _ _)
    set d := h.get o.features.parameters with hd
    have hstep : deepcopyFeatures h o
        = ((⟨h.cells ++ [d]⟩ : Heap),
           { o.features with parameters := h.cells.length }) := by
      simp only [deepcopyFeatures, Heap.alloc, hd]
    have hlen1 : (⟨h.cells ++ [d]⟩ : Heap).cells.length = h.cells.length + 1 := by
      simp
    have hpres1 : ∀ a, a < h.cells.length →
        (⟨h.cells ++ [d]⟩ : Heap).get a = h.get a := by
      intro a ha
      simp [Heap.get, List.getElem?_append_left ha]
    have hgnew : (⟨h.cells ++ [d]⟩ : Heap).get h.cells.length = d := by
      simp [Heap.get, List.getElem?_concat_length]
    have hv2 : ∀ o2 ∈ rest, (⟨h.cells ++ [d]⟩ : Heap).valid
        o2.features.parameters := by
      intro o2 hm
      have hvo2 : o2.features.parameters < h.cells.length :=
        hv o2 (List.mem_cons_of_mem _ hm)
      show o2.features.parameters < (h.cells ++ [d]).length
      rw [List.length_append]
      exact lt_of_lt_of_le hvo2 (Nat.le_add_right _ _)
    obtain ⟨h1, fs, heq1, hle1, hpresIH, hlenIH, hboundsIH, hpairIH, hfIH⟩ :=
      ih (⟨h.cells ++ [d]⟩ : Heap) hv2
    have hlt : h.cells.length < (⟨h.cells ++ [d]⟩ : Heap).cells.length := by
      rw [hlen1]
      exact Nat.lt_succ_self _
    refine ⟨h1, { o.features with parameters := h.cells.length } :: fs,
      ?_, ?_, ?_, ?_, ?_, ?_, ?_⟩
    · simp only [deepcopyAllFeatures, hstep, heq1]
    · exact le_trans (le_of_lt hlt) hle1
    · intro a ha
      rw [hpresIH a (lt_trans ha hlt), hpres1 a ha]
    · simp [hlenIH]
    · intro f hm
      rcases List.mem_cons.mp hm with rfl | hm2
      · exact ⟨le_refl _, lt_of_lt_of_le hlt hle1⟩
      · obtain ⟨hb1, hb2⟩ := hboundsIH f hm2
        exact ⟨le_trans (le_of_lt hlt) hb1, hb2⟩
    · rw [List.pairwise_cons]
      refine ⟨?_, hpairIH⟩
      intro f hm2
      exact lt_of_lt_of_le hlt (hboundsIH f hm2).1
    · refine List.Forall₂.cons ⟨rfl, rfl, rfl, rfl, ?_⟩ ?_
      · show h1.get h.cells.length = d
        rw [hpresIH _ hlt, hgnew]
      · refine forall₂_imp_of_mem ?_ hfIH
        intro o2 f hm hrel
        obtain ⟨h1r, h2r, h3r, h4r, h5r⟩ := hrel
        refine ⟨h1r, h2r, h3r, h4r, ?_⟩
        rw [h5r, hpres1 _ (hv o2 (List.mem_cons_of_mem _ hm))]

theorem sorted_keyLt_of_sorted_keyLe (l : Dict) (hs : List.Sorted keyLe l)
    (hnd : (l.map Prod.fst).Nodup) : List.Sorted keyLt l := by
  have hne : List.Pairwise (fun x y : String × PVal => x.1 ≠ y.1) l :=
    (List.pairwise_map).mp hnd
  exact List.Pairwise.imp₂ (fun _ _ hle hne2 => lt_of_le_of_ne hle hne2) hs hne

theorem sortParams_eq_of_perm (d1 d2 : Dict) (hp : d1.Perm d2)
    (hnd : (d1.map Prod.fst).Nodup) : sortParams d1 = sortParams d2 := by
  have p1 := List.perm_insertionSort keyLe d1
  have p2 := List.perm_insertionSort keyLe d2
  have hperm : (sortParams d1).Perm (sortParams d2) :=
    p1.trans (hp.trans p2.symm)
  have hnd2 : (d2.map Prod.fst).Nodup := ((hp.map Prod.fst).nodup_iff).mp hnd
  have hnds1 : ((sortParams d1).map Prod.fst).Nodup :=
    ((p1.map Prod.fst).nodup_iff).mpr hnd
  have hnds2 : ((sortParams d2).map Prod.fst).Nodup :=
    ((p2.map Prod.fst).nodup_iff).mpr hnd2
  exact List.eq_of_perm_of_sorted hperm
    (sorted_keyLt_of_sorted_keyLe _ (List.sorted_insertionSort keyLe d1) hnds1)
    (sorted_keyLt_of_sorted_keyLe _ (List.sorted_insertionSort keyLe d2) hnds2)

theorem forall₂_map_self {α β : Type} (f : α → β) (l : List α) :
    List.Forall₂ (fun a b => b = f a) l (l.map f) := by
  induction l with
  | nil => exact List.Forall₂.nil
  | cons a rest ih => exact List.Forall₂.cons rfl ih

theorem forall₂_imp_of_mem₂ {α β : Type} {R S : α → β → Prop} :
    ∀ {l1 : List α} {l2 : List β},
    (∀ a b, a ∈ l1 → b ∈ l2 → R a b → S a b) → List.Forall₂ R l1 l2 →
    List.Forall₂ S l1 l2 := by
  intro l1
  induction l1 with
  | nil =>
    intro l2 _ hf
    cases hf
    exact List.Forall₂.nil
  | cons a rest ih =>
    intro l2 himp hf
    cases hf with
    | cons h1 h2 =>
      exact List.Forall₂.cons
        (himp _ _ (List.mem_cons_self _ _) (List.mem_cons_self _ _) h1)
        (ih (fun a2 b2 hma hmb =>
          himp a2 b2 (List.mem_cons_of_mem _ hma) (List.mem_cons_of_mem _ hmb))
          h2)

/-- C4: the Outcome Bundle constructor succeeds exactly when `means` has
shape `(k,)` and `covariance` has shape `(k, k)` for `k` the number of metric
names; each mismatch raises the `ValueError` naming the failing array with
the expected and actual shape, and no bundle is produced (the success case
produces exactly the bundle of the three arguments). -/
theorem observation_data_shape_check_spec (mn : List String) (ms : List ℚ)
    (cv : Mat2) :
    ((∃ d, mkObservationData mn ms cv = .ok d)
        ↔ ms.length = mn.length ∧ cv.shape = (mn.length, mn.length))
    ∧ (ms.length = mn.length → cv.shape = (mn.length, mn.length) →
        mkObservationData mn ms cv = .ok ⟨mn, ms, cv⟩)
    ∧ (ms.length ≠ mn.length →
        mkObservationData mn ms cv = .error (.meansShape mn.length ms.length))
    ∧ (ms.length = mn.length → cv.shape ≠ (mn.length, mn.length) →
        mkObservationData mn ms cv
          = .error (.covShape (mn.length, mn.length) cv.shape)) := by
  by_cases h1 : ms.length = mn.length
  · by_cases h2 : cv.shape = (mn.length, mn.length)
    · have hok : mkObservationData mn ms cv = .ok ⟨mn, ms, cv⟩ := by
        simp [mkObservationData, h1, h2]
      exact ⟨⟨fun _ => ⟨h1, h2⟩, fun _ => ⟨_, hok⟩⟩, fun _ _ => hok,
        fun hc => absurd h1 hc, fun _ hc => absurd h2 hc⟩
    · have herr : mkObservationData mn ms cv
          = .error (.covShape (mn.length, mn.length) cv.shape) := by
        simp [mkObservationData, h1, h2]
      refine ⟨⟨?_, ?_⟩, ?_, ?_, fun _ _ => herr⟩
      · rintro ⟨d, hd⟩
        rw [herr] at hd
        cases hd
      · rintro ⟨_, hc⟩
        exact absurd hc h2
      · intro _ hc
        exact absurd hc h2
      · intro hc
        exact absurd h1 hc
  · have herr : mkObservationData mn ms cv
        = .error (.meansShape mn.length ms.length) := by
      simp [mkObservationData, h1]
    refine ⟨⟨?_, ?_⟩, ?_, fun _ => herr, ?_⟩
    · rintro ⟨d, hd⟩
      rw [herr] at hd
      cases hd
    · rintro ⟨hc, _⟩
      exact absurd hc h1
    · intro hc
      exact absurd hc h1
    · intro hc
      exact absurd hc h1

/-- Witness for C4: a well-shaped bundle constructs, and both mismatch kinds
raise the expected errors, at concrete inputs. -/
theorem observation_data_shape_check_spec_witness :
    mkObservationData ["m1", "m2"] [3, 4] ⟨[[1, 0], [0, 1]], 2⟩
      = .ok ⟨["m1", "m2"], [3, 4], ⟨[[1, 0], [0, 1]], 2⟩⟩
    ∧ mkObservationData ["m1", "m2"] [3] ⟨[[1, 0], [0, 1]], 2⟩
      = .error (.meansShape 2 1)
    ∧ mkObservationData ["m1"] [3] ⟨[[1, 0], [0, 1]], 2⟩
      = .error (.covShape (1, 1) (2, 2)) :=
  ⟨(observation_data_shape_check_spec ["m1", "m2"] [3, 4]
      ⟨[[1, 0], [0, 1]], 2⟩).2.1 (by decide) (by decide),
   (observation_data_shape_check_spec ["m1", "m2"] [3]
      ⟨[[1, 0], [0, 1]], 2⟩).2.2.1 (by decide),
   (observation_data_shape_check_spec ["m1"] [3]
      ⟨[[1, 0], [0, 1]], 2⟩).2.2.2 (by decide) (by decide)⟩

/-- Concrete objects for claim C2: one arm whose dictionary, at address 0,
holds x = 1. -/
def armC2 : Arm := ⟨0⟩

def heapC2 : Heap := ⟨[[("x", PVal.int 1)]]⟩

/-- C2 counterexample: `from_arm` does not hand the Feature Point a fresh
copy of the arm's parameter mapping — it passes `arm.parameters` itself.
Mutating the dictionary the returned Feature Point refers to changes the
arm's own mapping, contradicting the claim that "later mutation of the
Feature Point's parameters leaves the arm's mapping unchanged". -/
theorem from_arm_shares_arm_parameters_cex :
    (heapC2.set
        (ObservationFeatures.from_arm armC2 none none none none).parameters
        [("x", PVal.int 2)]).get armC2.parameters
      ≠ heapC2.get armC2.parameters := by decide

/-- C2 (amended): `from_arm` returns a Feature Point whose `parameters` is
the arm's own parameter mapping — the very same object, not a copy, so a
mutation through the Feature Point is visible through the arm — and whose
four context fields equal the supplied values, unset when not supplied. -/
theorem from_arm_aliases_arm_parameters (arm : Arm)
    (ti st en rs : Option Int) (h : Heap) (hv : h.valid arm.parameters) :
    (ObservationFeatures.from_arm arm ti st en rs).parameters = arm.parameters
    ∧ (ObservationFeatures.from_arm arm ti st en rs).trial_index = ti
    ∧ (ObservationFeatures.from_arm arm ti st en rs).start_time = st
    ∧ (ObservationFeatures.from_arm arm ti st en rs).end_time = en
    ∧ (ObservationFeatures.from_arm arm ti st en rs).random_split = rs
    ∧ ∀ d, (h.set
        (ObservationFeatures.from_arm arm ti st en rs).parameters d).get
          arm.parameters = d := by
  refine ⟨rfl, rfl, rfl, rfl, rfl, ?_⟩
  intro d
  exact Heap.get_set_self h arm.parameters d hv

/-- Witness for the amended C2 at a concrete arm, heap and context. -/
theorem from_arm_aliases_arm_parameters_witness :
    heapC2.valid armC2.parameters
    ∧ ((ObservationFeatures.from_arm armC2 (some 7) none none none).parameters
          = armC2.parameters
      ∧ (ObservationFeatures.from_arm armC2 (some 7) none none
          none).trial_index = some 7
      ∧ (ObservationFeatures.from_arm armC2 (some 7) none none
          none).start_time = none
      ∧ (ObservationFeatures.from_arm armC2 (some 7) none none
          none).end_time = none
      ∧ (ObservationFeatures.from_arm armC2 (some 7) none none
          none).random_split = none
      ∧ ∀ d, (heapC2.set
          (ObservationFeatures.from_arm armC2 (some 7) none none
            none).parameters d).get armC2.parameters = d) :=
  ⟨by decide,
   from_arm_aliases_arm_parameters armC2 (some 7) none none none heapC2
     (by decide)⟩

/-- C3: `update_features(other)` writes every entry of `other.parameters`
into `self.parameters` (overwriting on key collision, adding new keys, never
removing a key of `self`, leaving keys `other` does not mention unchanged);
each of the four context fields of `self` is overwritten exactly when
`other`'s is set; and the call returns `self` itself — the result is the
post-state of `self`, still holding the same parameter dictionary object. -/
theorem update_features_merge_spec (h : Heap) (a b : ObservationFeatures)
    (hva : h.valid a.parameters)
    (hnd : ((h.get b.parameters).map Prod.fst).Nodup) :
    ∃ h1 r, ObservationFeatures.update_features h a b = (h1, r)
      ∧ r.parameters = a.parameters
      ∧ (∀ k v, (k, v) ∈ h.get b.parameters →
          (h1.get a.parameters).lookup k = some v)
      ∧ (∀ k, k ∈ (h.get a.parameters).keys → k ∈ (h1.get a.parameters).keys)
      ∧ (∀ k, k ∉ (h.get b.parameters).keys →
          (h1.get a.parameters).lookup k = (h.get a.parameters).lookup k)
      ∧ (b.trial_index = none → r.trial_index = a.trial_index)
      ∧ (∀ v, b.trial_index = some v → r.trial_index = some v)
      ∧ (b.start_time = none → r.start_time = a.start_time)
      ∧ (∀ v, b.start_time = some v → r.start_time = some v)
      ∧ (b.end_time = none → r.end_time = a.end_time)
      ∧ (∀ v, b.end_time = some v → r.end_time = some v)
      ∧ (b.random_split = none → r.random_split = a.random_split)
      ∧ (∀ v, b.random_split = some v → r.random_split = some v) := by
  have hget : (h.set a.parameters
        ((h.get a.parameters).update (h.get b.parameters))).get a.parameters
      = (h.get a.parameters).update (h.get b.parameters) :=
    Heap.get_set_self _ _ _ hva
  refine ⟨_, _, rfl, rfl, ?_, ?_, ?_, ?_, ?_, ?_, ?_, ?_, ?_, ?_, ?_⟩
  · intro k v hm
    rw [hget]
    exact Dict.lookup_update_mem _ _ _ _ hnd hm
  · intro k hk
    rw [hget]
    exact Dict.mem_keys_update _ _ _ hk
  · intro k hk
    rw [hget]
    exact Dict.lookup_update_not_mem _ _ _ hk
  · intro hb
    simp only [ObservationFeatures.update_features, hb]
  · intro v hb
    simp only [ObservationFeatures.update_features, hb]
  · intro hb
    simp only [ObservationFeatures.update_features, hb]
  · intro v hb
    simp only [ObservationFeatures.update_features, hb]
  · intro hb
    simp only [ObservationFeatures.update_features, hb]
  · intro v hb
    simp only [ObservationFeatures.update_features, hb]
  · intro hb
    simp only [ObservationFeatures.update_features, hb]
  · intro v hb
    simp only [ObservationFeatures.update_features, hb]

/-- Concrete objects for the C3 witness: dictionary 0 holds x=1, y=2;
dictionary 1 holds y=9, z=3. -/
def heapC3 : Heap :=
  ⟨[[("x", PVal.int 1), ("y", PVal.int 2)],
    [("y", PVal.int 9), ("z", PVal.int 3)]]⟩

def featC3a : ObservationFeatures := ⟨0, none, some 1, none, none⟩

def featC3b : ObservationFeatures := ⟨1, some 5, none, none, none⟩

/-- Witness for C3 at a concrete heap and feature pair: y collides (9 wins),
z is added, x survives, trial_index is overwritten, start_time survives. -/
theorem update_features_merge_spec_witness :
    heapC3.valid featC3a.parameters
    ∧ ((heapC3.get featC3b.parameters).map Prod.fst).Nodup
    ∧ ∃ h1 r, ObservationFeatures.update_features heapC3 featC3a featC3b
          = (h1, r)
      ∧ r.parameters = featC3a.parameters
      ∧ (∀ k v, (k, v) ∈ heapC3.get featC3b.parameters →
          (h1.get featC3a.parameters).lookup k = some v)
      ∧ (∀ k, k ∈ (heapC3.get featC3a.parameters).keys →
          k ∈ (h1.get featC3a.parameters).keys)
      ∧ (∀ k, k ∉ (heapC3.get featC3b.parameters).keys →
          (h1.get featC3a.parameters).lookup k
            = (heapC3.get featC3a.parameters).lookup k)
      ∧ (featC3b.trial_index = none → r.trial_index = featC3a.trial_index)
      ∧ (∀ v, featC3b.trial_index = some v → r.trial_index = some v)
      ∧ (featC3b.start_time = none → r.start_time = featC3a.start_time)
      ∧ (∀ v, featC3b.start_time = some v → r.start_time = some v)
      ∧ (featC3b.end_time = none → r.end_time = featC3a.end_time)
      ∧ (∀ v, featC3b.end_time = some v → r.end_time = some v)
      ∧ (featC3b.random_split = none → r.random_split = featC3a.random_split)
      ∧ (∀ v, featC3b.random_split = some v → r.random_split = some v) :=
  ⟨by decide, by decide,
   update_features_merge_spec heapC3 featC3a featC3b (by decide) (by decide)⟩

/-- C8: two Feature Points whose parameter dictionaries hold the same
key/value pairs inserted in different orders (a permutation, with no
duplicate keys) and whose four context fields agree feed the same
canonicalized tuple to `hash` — so they hash identically — and compare
equal. -/
theorem observation_features_hash_order_independent (h : Heap)
    (a b : ObservationFeatures)
    (hperm : (h.get a.parameters).Perm (h.get b.parameters))
    (hnd : ((h.get a.parameters).map Prod.fst).Nodup)
    (h1 : a.trial_index = b.trial_index) (h2 : a.start_time = b.start_time)
    (h3 : a.end_time = b.end_time) (h4 : a.random_split = b.random_split) :
    ofHashKey h a = ofHashKey h b ∧ ofEqual h a b := by
  have hsort := sortParams_eq_of_perm _ _ hperm hnd
  exact ⟨by simp [ofHashKey, hsort, h1, h2, h3, h4], hsort, h1, h2, h3, h4⟩

/-- Concrete objects for the C8 witness: the same two entries inserted in
opposite orders, equal context fields. -/
def heapC8 : Heap :=
  ⟨[[("x", PVal.int 1), ("y", PVal.bool true)],
    [("y", PVal.bool true), ("x", PVal.int 1)]]⟩

def featC8a : ObservationFeatures := ⟨0, some 3, none, none, none⟩

def featC8b : ObservationFeatures := ⟨1, some 3, none, none, none⟩

/-- Witness for C8 at the concrete pair. -/
theorem observation_features_hash_order_independent_witness :
    (heapC8.get featC8a.parameters).Perm (heapC8.get featC8b.parameters)
    ∧ ((heapC8.get featC8a.parameters).map Prod.fst).Nodup
    ∧ featC8a.trial_index = featC8b.trial_index
    ∧ featC8a.start_time = featC8b.start_time
    ∧ featC8a.end_time = featC8b.end_time
    ∧ featC8a.random_split = featC8b.random_split
    ∧ (ofHashKey heapC8 featC8a = ofHashKey heapC8 featC8b
        ∧ ofEqual heapC8 featC8a featC8b) :=
  ⟨by decide, by decide, rfl, rfl, rfl, rfl,
   observation_features_hash_order_independent heapC8 featC8a featC8b
     (by decide) (by decide) rfl rfl rfl rfl⟩

/-- Concrete objects for claim C6: the registry maps arm a0 to an arm whose
parameter dictionary (address 0) is empty; the table has one measurement row
for a0 and no optional columns. -/
def expC6 : Experiment := ⟨[("a0", ⟨0⟩)]⟩

def heapC6 : Heap := ⟨[[]]⟩

def tableC6 : Table :=
  ⟨false, false, false, false, false, [⟨"a0", 0, 0, 0, 0, [], "m1", 1, 1⟩]⟩

/-- C6 (code bug): a group whose arm has an empty parameter mapping does not
succeed.  Because of the `if obs_parameters:` guard, the empty copied
dictionary is never put into `obs_kwargs`, so `ObservationFeatures(**obs_kwargs)`
raises `TypeError` (its required `parameters` argument is missing) instead of
emitting an Observation, contradicting the spec's "a group with zero
parameters copied from the arm is permitted". -/
theorem observations_from_data_empty_arm_params_bug :
    observations_from_data expC6 heapC6 tableC6 = .error .missingParameters :=
  rfl

/-- C1: if every referenced arm is registered (and, to stay off the empty-
parameters defect recorded for C6, has a non-empty parameter mapping), then
`observations_from_data` returns one Observation per distinct combination of
values in the active identifying columns: the output length is the number of
distinct group keys, each group consists of exactly the rows carrying its
key (in their original order, every row covered), each Observation carries
its group's metric names and means in the order encountered, and its
covariance is the square matrix with the elementwise-squared `sem` values on
the diagonal and zero everywhere off the diagonal; an empty table yields an
empty output. -/
theorem observations_from_data_grouping_spec (e : Experiment) (h : Heap)
    (t : Table)
    (Harm : ∀ r ∈ t.rows, ∃ arm,
        (e.arms_by_name).lookup r.arm_name = some arm
        ∧ h.get arm.parameters ≠ []) :
    ∃ h' obs, observations_from_data e h t = .ok (h', obs)
      ∧ obs.length = (t.rows.map (rowKey t)).toFinset.card
      ∧ (∀ kg ∈ groupby t, kg.2 = t.rows.filter (fun r => rowKey t r = kg.1))
      ∧ (∀ r ∈ t.rows, ∃ kg ∈ groupby t, r ∈ kg.2)
      ∧ List.Forall₂ (fun (kg : GroupKey × List Row) (o : Observation) =>
          o.arm_name = some (kg.1).arm_name
          ∧ o.data.metric_names = (kg.2).map (fun r => r.metric_name)
          ∧ o.data.means = (kg.2).map (fun r => r.mean)
          ∧ o.data.covariance.shape = ((kg.2).length, (kg.2).length)
          ∧ (∀ i j, ∀ hi : i < (kg.2).length, j < (kg.2).length →
              o.data.covariance.entry i j
                = if i = j
                  then ((kg.2).get ⟨i, hi⟩).sem * ((kg.2).get ⟨i, hi⟩).sem
                  else 0)) (groupby t) obs
      ∧ (t.rows = [] → observations_from_data e h t = .ok (h, [])) := by
  have H : ∀ kg ∈ groupby t, ∃ arm,
      (e.arms_by_name).lookup (kg.1).arm_name = some arm
      ∧ h.get arm.parameters ≠ [] := by
    intro kg hm
    obtain ⟨⟨r, hr, hkey⟩, _⟩ := groupby_key_mem t kg hm
    obtain ⟨arm, hl, hb⟩ := Harm r hr
    refine ⟨arm, ?_, hb⟩
    rw [← hkey]
    exact hl
  obtain ⟨h', obs, heq, _, _, hlen, _, _, hf⟩ :=
    processGroups_ok e (groupby t) h H
  refine ⟨h', obs, heq, ?_, ?_, ?_, ?_, ?_⟩
  · rw [hlen]
    exact length_groupby t
  · intro kg hm
    exact (groupby_key_mem t kg hm).2
  · intro r hr
    obtain ⟨kg, hm, _, hrin⟩ := groupby_covers t r hr
    exact ⟨kg, hm, hrin⟩
  · refine List.Forall₂.imp ?_ hf
    intro kg o hrel
    obtain ⟨han, _, _, _, _, _, hmn, hms, hcov⟩ := hrel
    refine ⟨han, hmn, hms, ?_, ?_⟩
    · rw [hcov, npDiag_shape, List.length_map]
    · intro i j hi hj
      rw [hcov, npDiag_entry _ i j (by simpa using hi) (by simpa using hj)]
      by_cases hij : i = j
      · subst hij
        rw [if_pos rfl, if_pos rfl, List.getElem?_map,
          List.getElem?_eq_getElem hi]
        simp [List.get_eq_getElem]
      · rw [if_neg hij, if_neg hij]
  · intro hempty
    have hg : groupby t = [] := by
      simp [groupby, hempty, uniqueKeys]
    show processGroups e h (groupby t) = .ok (h, [])
    rw [hg]
    rfl

/-- Concrete objects for the C1 witness: one arm, three rows in two trials
(so two distinct group keys). -/
def heapC1 : Heap := ⟨[[("x", PVal.int 1), ("y", PVal.int 2)]]⟩

def expC1 : Experiment := ⟨[("arm1", ⟨0⟩)]⟩

def tableC1 : Table :=
  ⟨true, false, false, false, false,
   [⟨"arm1", 0, 0, 0, 0, [], "m1", 3, 1/2⟩,
    ⟨"arm1", 0, 0, 0, 0, [], "m2", 4, 1⟩,
    ⟨"arm1", 1, 0, 0, 0, [], "m1", 5, 2⟩]⟩

/-- Witness for C1 at the concrete experiment and three-row table. -/
theorem observations_from_data_grouping_spec_witness :
    (∀ r ∈ tableC1.rows, ∃ arm,
        (expC1.arms_by_name).lookup r.arm_name = some arm
        ∧ heapC1.get arm.parameters ≠ [])
    ∧ (∃ h' obs, observations_from_data expC1 heapC1 tableC1 = .ok (h', obs)
      ∧ obs.length = (tableC1.rows.map (rowKey tableC1)).toFinset.card
      ∧ (∀ kg ∈ groupby tableC1,
          kg.2 = tableC1.rows.filter (fun r => rowKey tableC1 r = kg.1))
      ∧ (∀ r ∈ tableC1.rows, ∃ kg ∈ groupby tableC1, r ∈ kg.2)
      ∧ List.Forall₂ (fun (kg : GroupKey × List Row) (o : Observation) =>
          o.arm_name = some (kg.1).arm_name
          ∧ o.data.metric_names = (kg.2).map (fun r => r.metric_name)
          ∧ o.data.means = (kg.2).map (fun r => r.mean)
          ∧ o.data.covariance.shape = ((kg.2).length, (kg.2).length)
          ∧ (∀ i j, ∀ hi : i < (kg.2).length, j < (kg.2).length →
              o.data.covariance.entry i j
                = if i = j
                  then ((kg.2).get ⟨i, hi⟩).sem * ((kg.2).get ⟨i, hi⟩).sem
                  else 0)) (groupby tableC1) obs
      ∧ (tableC1.rows = [] →
          observations_from_data expC1 heapC1 tableC1 = .ok (heapC1, []))) := by
  have harm : ∀ r ∈ tableC1.rows, ∃ arm,
      (expC1.arms_by_name).lookup r.arm_name = some arm
      ∧ heapC1.get arm.parameters ≠ [] := by
    intro r hr
    refine ⟨⟨0⟩, ?_, by decide⟩
    fin_cases hr <;> rfl
  exact ⟨harm,
    observations_from_data_grouping_spec expC1 heapC1 tableC1 harm⟩

/-- C5: under the same success hypotheses as C1, each group whose key
carries a fidelities mapping gets a Feature Point whose dictionary is the
arm's copied base parameters updated with every fidelity entry: the whole
dictionary equals `base.update fd`, each fidelity entry's key now looks up
the fidelity value (overwriting any base entry of that key), and keys the
fidelity mapping does not mention keep their base value. -/
theorem observations_from_data_fidelity_override (e : Experiment) (h : Heap)
    (t : Table)
    (Harm : ∀ r ∈ t.rows, ∃ arm,
        (e.arms_by_name).lookup r.arm_name = some arm
        ∧ h.get arm.parameters ≠ []) :
    ∃ h' obs, observations_from_data e h t = .ok (h', obs)
      ∧ List.Forall₂ (fun (kg : GroupKey × List Row) (o : Observation) =>
          ∀ fd, (kg.1).fidelities = some fd →
          (∀ arm, (e.arms_by_name).lookup (kg.1).arm_name = some arm →
            h'.get o.features.parameters = (h.get arm.parameters).update fd)
          ∧ (∀ k v, fd.keys.Nodup → (k, v) ∈ fd →
              (h'.get o.features.parameters).lookup k = some v)
          ∧ (∀ k, k ∉ fd.keys → ∀ arm,
              (e.arms_by_name).lookup (kg.1).arm_name = some arm →
              (h'.get o.features.parameters).lookup k
                = (h.get arm.parameters).lookup k)) (groupby t) obs := by
  have H : ∀ kg ∈ groupby t, ∃ arm,
      (e.arms_by_name).lookup (kg.1).arm_name = some arm
      ∧ h.get arm.parameters ≠ [] := by
    intro kg hm
    obtain ⟨⟨r, hr, hkey⟩, _⟩ := groupby_key_mem t kg hm
    obtain ⟨arm, hl, hb⟩ := Harm r hr
    refine ⟨arm, ?_, hb⟩
    rw [← hkey]
    exact hl
  obtain ⟨h', obs, heq, _, _, _, _, _, hf⟩ :=
    processGroups_ok e (groupby t) h H
  refine ⟨h', obs, heq, ?_⟩
  refine List.Forall₂.imp ?_ hf
  intro kg o hrel
  obtain ⟨_, _, _, _, _, ⟨arm, hlook, hcontent⟩, _, _, _⟩ := hrel
  intro fd hfd
  rw [hfd] at hcontent
  simp only [Option.getD_some] at hcontent
  refine ⟨?_, ?_, ?_⟩
  · intro arm2 hlook2
    have harm : arm2 = arm := by
      have h3 := hlook2.symm.trans hlook
      injection h3
    subst harm
    exact hcontent
  · intro k v hndfd hm
    rw [hcontent]
    exact Dict.lookup_update_mem _ _ _ _ hndfd hm
  · intro k hk arm2 hlook2
    have harm : arm2 = arm := by
      have h3 := hlook2.symm.trans hlook
      injection h3
    subst harm
    rw [hcontent]
    exact Dict.lookup_update_not_mem _ _ _ hk

/-- Concrete objects for the C5 witness: arm base x = 1, one row whose
fidelities cell encodes x = 5. -/
def heapC5 : Heap := ⟨[[("x", PVal.int 1)]]⟩

def expC5 : Experiment := ⟨[("arm1", ⟨0⟩)]⟩

def tableC5 : Table :=
  ⟨false, false, false, false, true,
   [⟨"arm1", 0, 0, 0, 0, [("x", PVal.int 5)], "m1", 3, 1⟩]⟩

/-- Witness for C5: the base parameter x = 1 is overridden to 5. -/
theorem observations_from_data_fidelity_override_witness :
    (∀ r ∈ tableC5.rows, ∃ arm,
        (expC5.arms_by_name).lookup r.arm_name = some arm
        ∧ heapC5.get arm.parameters ≠ [])
    ∧ (∃ h' obs, observations_from_data expC5 heapC5 tableC5 = .ok (h', obs)
      ∧ List.Forall₂ (fun (kg : GroupKey × List Row) (o : Observation) =>
          ∀ fd, (kg.1).fidelities = some fd →
          (∀ arm, (expC5.arms_by_name).lookup (kg.1).arm_name = some arm →
            h'.get o.features.parameters
              = (heapC5.get arm.parameters).update fd)
          ∧ (∀ k v, fd.keys.Nodup → (k, v) ∈ fd →
              (h'.get o.features.parameters).lookup k = some v)
          ∧ (∀ k, k ∉ fd.keys → ∀ arm,
              (expC5.arms_by_name).lookup (kg.1).arm_name = some arm →
              (h'.get o.features.parameters).lookup k
                = (heapC5.get arm.parameters).lookup k))
          (groupby tableC5) obs) := by
  have harm : ∀ r ∈ tableC5.rows, ∃ arm,
      (expC5.arms_by_name).lookup r.arm_name = some arm
      ∧ heapC5.get arm.parameters ≠ [] := by
    intro r hr
    refine ⟨⟨0⟩, ?_, by decide⟩
    fin_cases hr
    rfl
  exact ⟨harm,
    observations_from_data_fidelity_override expC5 heapC5 tableC5 harm⟩

/-- C9: a measurement table referencing an arm name absent from the
registry makes `observations_from_data` fail with the lookup failure
(KeyError) naming an unregistered arm, and no observation list is produced
(the whole batch aborts).  The second hypothesis keeps the run clear of the
separate empty-parameters defect recorded for C6, so the lookup failure is
the error that surfaces. -/
theorem observations_from_data_unknown_arm_fails (e : Experiment) (h : Heap)
    (t : Table)
    (Hbad : ∃ r ∈ t.rows, (e.arms_by_name).lookup r.arm_name = none)
    (Hok : ∀ r ∈ t.rows, ∀ arm,
        (e.arms_by_name).lookup r.arm_name = some arm →
        h.get arm.parameters ≠ []) :
    (∃ nm, observations_from_data e h t = .error (.unknownArm nm)
      ∧ (e.arms_by_name).lookup nm = none)
    ∧ ∀ h' obs, observations_from_data e h t ≠ .ok (h', obs) := by
  have H : ∀ kg ∈ groupby t, ∀ arm,
      (e.arms_by_name).lookup (kg.1).arm_name = some arm →
      h.get arm.parameters ≠ [] := by
    intro kg hm arm hl
    obtain ⟨⟨r, hr, hkey⟩, _⟩ := groupby_key_mem t kg hm
    refine Hok r hr arm ?_
    rw [← hkey] at hl
    exact hl
  have Hbad2 : ∃ kg ∈ groupby t,
      (e.arms_by_name).lookup (kg.1).arm_name = none := by
    obtain ⟨r, hr, hn⟩ := Hbad
    obtain ⟨kg, hm, hkey, _⟩ := groupby_covers t r hr
    refine ⟨kg, hm, ?_⟩
    rw [hkey]
    exact hn
  obtain ⟨nm, heq, hn⟩ := processGroups_unknownArm e (groupby t) h H Hbad2
  refine ⟨⟨nm, heq, hn⟩, ?_⟩
  intro h' obs hok
  rw [show observations_from_data e h t = processGroups e h (groupby t)
    from rfl, heq] at hok
  cases hok

/-- Concrete objects for the C9 witness: one registered arm and one row
naming the unregistered arm "ghost". -/
def expC9 : Experiment := ⟨[("arm1", ⟨0⟩)]⟩

def heapC9 : Heap := ⟨[[("x", PVal.int 1)]]⟩

def tableC9 : Table :=
  ⟨false, false, false, false, false,
   [⟨"arm1", 0, 0, 0, 0, [], "m1", 3, 1⟩,
    ⟨"ghost", 0, 0, 0, 0, [], "m1", 4, 1⟩]⟩

/-- Witness for C9 at the concrete inputs. -/
theorem observations_from_data_unknown_arm_fails_witness :
    (∃ r ∈ tableC9.rows, (expC9.arms_by_name).lookup r.arm_name = none)
    ∧ (∀ r ∈ tableC9.rows, ∀ arm,
        (expC9.arms_by_name).lookup r.arm_name = some arm →
        heapC9.get arm.parameters ≠ [])
    ∧ ((∃ nm, observations_from_data expC9 heapC9 tableC9
          = .error (.unknownArm nm)
        ∧ (expC9.arms_by_name).lookup nm = none)
      ∧ ∀ h' obs, observations_from_data expC9 heapC9 tableC9
          ≠ .ok (h', obs)) := by
  have hbad : ∃ r ∈ tableC9.rows,
      (expC9.arms_by_name).lookup r.arm_name = none :=
    ⟨⟨"ghost", 0, 0, 0, 0, [], "m1", 4, 1⟩, by decide, rfl⟩
  have hok : ∀ r ∈ tableC9.rows, ∀ arm,
      (expC9.arms_by_name).lookup r.arm_name = some arm →
      heapC9.get arm.parameters ≠ [] := by
    intro r hr arm harm
    fin_cases hr
    · injection harm with harm2
      subst harm2
      decide
    · exact Option.noConfusion harm
  exact ⟨hbad, hok,
    observations_from_data_unknown_arm_fails expC9 heapC9 tableC9 hbad hok⟩

/-- C10: under the success hypotheses, `observations_from_data` never
mutates a registered arm's dictionary (every valid registry dictionary reads
the same before and after), and every emitted Observation's Feature Point
owns a parameter dictionary distinct from every registered arm's dictionary
and from every other Observation's, so writing through one Observation's
dictionary changes neither any arm's dictionary nor any other
Observation's. -/
theorem observations_from_data_independent_copies (e : Experiment) (h : Heap)
    (t : Table)
    (Harm : ∀ r ∈ t.rows, ∃ arm,
        (e.arms_by_name).lookup r.arm_name = some arm
        ∧ h.get arm.parameters ≠ []) :
    ∃ h' obs, observations_from_data e h t = .ok (h', obs)
      ∧ (∀ nm arm, (nm, arm) ∈ e.arms_by_name → h.valid arm.parameters →
          h'.get arm.parameters = h.get arm.parameters)
      ∧ List.Pairwise (fun o1 o2 =>
          o1.features.parameters ≠ o2.features.parameters) obs
      ∧ (∀ o ∈ obs, ∀ nm arm, (nm, arm) ∈ e.arms_by_name →
          h.valid arm.parameters →
          o.features.parameters ≠ arm.parameters)
      ∧ (∀ o ∈ obs, ∀ d nm arm, (nm, arm) ∈ e.arms_by_name →
          h.valid arm.parameters →
          (h'.set o.features.parameters d).get arm.parameters
            = h'.get arm.parameters)
      ∧ (∀ o1 ∈ obs, ∀ o2 ∈ obs,
          o1.features.parameters ≠ o2.features.parameters → ∀ d,
          (h'.set o1.features.parameters d).get o2.features.parameters
            = h'.get o2.features.parameters) := by
  have H : ∀ kg ∈ groupby t, ∃ arm,
      (e.arms_by_name).lookup (kg.1).arm_name = some arm
      ∧ h.get arm.parameters ≠ [] := by
    intro kg hm
    obtain ⟨⟨r, hr, hkey⟩, _⟩ := groupby_key_mem t kg hm
    obtain ⟨arm, hl, hb⟩ := Harm r hr
    refine ⟨arm, ?_, hb⟩
    rw [← hkey]
    exact hl
  obtain ⟨h', obs, heq, hle, hpres, _, hbounds, hpair, _⟩ :=
    processGroups_ok e (groupby t) h H
  refine ⟨h', obs, heq, ?_, ?_, ?_, ?_, ?_⟩
  · intro nm arm _ hv
    exact hpres _ hv
  · exact hpair.imp fun hlt => Nat.ne_of_lt hlt
  · intro o hm nm arm _ hv
    exact ne_of_gt (lt_of_lt_of_le hv (hbounds o hm).1)
  · intro o hm d nm arm _ hv
    exact Heap.get_set_ne _ _ _ _
      (ne_of_lt (lt_of_lt_of_le hv (hbounds o hm).1))
  · intro o1 _ o2 _ hne d
    exact Heap.get_set_ne _ _ _ _ (fun h2 => hne h2.symm)

/-- Witness for C10 at the concrete C1 experiment and table. -/
theorem observations_from_data_independent_copies_witness :
    (∀ r ∈ tableC1.rows, ∃ arm,
        (expC1.arms_by_name).lookup r.arm_name = some arm
        ∧ heapC1.get arm.parameters ≠ [])
    ∧ (∃ h' obs, observations_from_data expC1 heapC1 tableC1 = .ok (h', obs)
      ∧ (∀ nm arm, (nm, arm) ∈ expC1.arms_by_name →
          heapC1.valid arm.parameters →
          h'.get arm.parameters = heapC1.get arm.parameters)
      ∧ List.Pairwise (fun o1 o2 =>
          o1.features.parameters ≠ o2.features.parameters) obs
      ∧ (∀ o ∈ obs, ∀ nm arm, (nm, arm) ∈ expC1.arms_by_name →
          heapC1.valid arm.parameters →
          o.features.parameters ≠ arm.parameters)
      ∧ (∀ o ∈ obs, ∀ d nm arm, (nm, arm) ∈ expC1.arms_by_name →
          heapC1.valid arm.parameters →
          (h'.set o.features.parameters d).get arm.parameters
            = h'.get arm.parameters)
      ∧ (∀ o1 ∈ obs, ∀ o2 ∈ obs,
          o1.features.parameters ≠ o2.features.parameters → ∀ d,
          (h'.set o1.features.parameters d).get o2.features.parameters
            = h'.get o2.features.parameters)) := by
  have harm : ∀ r ∈ tableC1.rows, ∃ arm,
      (expC1.arms_by_name).lookup r.arm_name = some arm
      ∧ heapC1.get arm.parameters ≠ [] := by
    intro r hr
    refine ⟨⟨0⟩, ?_, by decide⟩
    fin_cases hr <;> rfl
  exact ⟨harm,
    observations_from_data_independent_copies expC1 heapC1 tableC1 harm⟩

/-- C7: `separate_observations` returns two sequences of the input's length
in 1:1 index correspondence with the input.  With the copy flag unset the
returned elements are the very same feature and data objects the input
Observations hold (in particular each returned Feature Point refers to the
same parameter dictionary, so mutation aliases).  With the copy flag set
each returned Feature Point is a deep copy: equal context fields and equal
dictionary contents, but a dictionary object distinct from every input
Observation's, so writing through a returned Feature Point's dictionary
leaves every input Observation's dictionary unchanged and vice versa; the
returned copies are also pairwise independent, and the input dictionaries
keep their contents. -/
theorem separate_observations_spec (h : Heap) (obs : List Observation) :
    (separate_observations h obs false
        = (h, obs.map (fun o => o.features), obs.map (fun o => o.data))
      ∧ (obs.map (fun o => o.features)).length = obs.length
      ∧ (obs.map (fun o => o.data)).length = obs.length
      ∧ List.Forall₂ (fun o f => f = o.features) obs
          (obs.map (fun o => o.features)))
    ∧ ((∀ o ∈ obs, h.valid o.features.parameters) →
        ∃ h1 fs, separate_observations h obs true
            = (h1, fs, obs.map (fun o => o.data))
          ∧ fs.length = obs.length
          ∧ (∀ a, a < h.cells.length → h1.get a = h.get a)
          ∧ List.Forall₂ (fun o f =>
              f.trial_index = o.features.trial_index
              ∧ f.start_time = o.features.start_time
              ∧ f.end_time = o.features.end_time
              ∧ f.random_split = o.features.random_split
              ∧ h1.get f.parameters = h.get o.features.parameters
              ∧ (∀ o2 ∈ obs, f.parameters ≠ o2.features.parameters)
              ∧ (∀ d o2, o2 ∈ obs →
                  (h1.set f.parameters d).get o2.features.parameters
                    = h1.get o2.features.parameters)
              ∧ (∀ d o2, o2 ∈ obs →
                  (h1.set o2.features.parameters d).get f.parameters
                    = h1.get f.parameters)) obs fs
          ∧ List.Pairwise (fun f1 f2 => f1.parameters ≠ f2.parameters) fs) := by
  constructor
  · exact ⟨rfl, List.length_map _ _, List.length_map _ _,
      forall₂_map_self _ obs⟩
  · intro Hv
    obtain ⟨h1, fs, heqd, hled, hpresd, hlend, hboundsd, hpaird, hfd⟩ :=
      deepcopyAllFeatures_ok obs h Hv
    have heqs : separate_observations h obs true
        = (h1, fs, obs.map (fun o => o.data)) := by
      simp only [separate_observations, heqd, if_true]
    refine ⟨h1, fs, heqs, hlend, hpresd, ?_, ?_⟩
    · refine forall₂_imp_of_mem₂ ?_ hfd
      intro o f hmo hmf hrel
      obtain ⟨r1, r2, r3, r4, r5⟩ := hrel
      have hfb := hboundsd f hmf
      refine ⟨r1, r2, r3, r4, r5, ?_, ?_, ?_⟩
      · intro o2 hm2
        exact ne_of_gt (lt_of_lt_of_le (Hv o2 hm2) hfb.1)
      · intro d o2 hm2
        exact Heap.get_set_ne _ _ _ _
          (ne_of_lt (lt_of_lt_of_le (Hv o2 hm2) hfb.1))
      · intro d o2 hm2
        exact Heap.get_set_ne _ _ _ _
          (ne_of_gt (lt_of_lt_of_le (Hv o2 hm2) hfb.1))
    · exact hpaird.imp fun hlt => Nat.ne_of_lt hlt

/-- Concrete objects for the C7 witness: two observations whose parameter
dictionaries live at addresses 0 and 1. -/
def heapC7 : Heap := ⟨[[("x", PVal.int 1)], [("y", PVal.int 2)]]⟩

def obsC7 : List Observation :=
  [⟨⟨0, some 0, none, none, none⟩, ⟨["m1"], [3], ⟨[[1]], 1⟩⟩, some "arm1"⟩,
   ⟨⟨1, some 1, none, none, none⟩, ⟨["m2"], [4], ⟨[[4]], 1⟩⟩, some "arm2"⟩]

/-- Witness for C7 at the concrete observation list, both flag values. -/
theorem separate_observations_spec_witness :
    (∀ o ∈ obsC7, heapC7.valid o.features.parameters)
    ∧ (separate_observations heapC7 obsC7 false
        = (heapC7, obsC7.map (fun o => o.features),
            obsC7.map (fun o => o.data))
      ∧ (obsC7.map (fun o => o.features)).length = obsC7.length
      ∧ (obsC7.map (fun o => o.data)).length = obsC7.length
      ∧ List.Forall₂ (fun o f => f = o.features) obsC7
          (obsC7.map (fun o => o.features)))
    ∧ (∃ h1 fs, separate_observations heapC7 obsC7 true
          = (h1, fs, obsC7.map (fun o => o.data))
        ∧ fs.length = obsC7.length
        ∧ (∀ a, a < heapC7.cells.length → h1.get a = heapC7.get a)
        ∧ List.Forall₂ (fun o f =>
            f.trial_index = o.features.trial_index
            ∧ f.start_time = o.features.start_time
            ∧ f.end_time = o.features.end_time
            ∧ f.random_split = o.features.random_split
            ∧ h1.get f.parameters = heapC7.get o.features.parameters
            ∧ (∀ o2 ∈ obsC7, f.parameters ≠ o2.features.parameters)
            ∧ (∀ d o2, o2 ∈ obsC7 →
                (h1.set f.parameters d).get o2.features.parameters
                  = h1.get o2.features.parameters)
            ∧ (∀ d o2, o2 ∈ obsC7 →
                (h1.set o2.features.parameters d).get f.parameters
                  = h1.get f.parameters)) obsC7 fs
        ∧ List.Pairwise (fun f1 f2 => f1.parameters ≠ f2.parameters) fs) :=
  ⟨by decide, (separate_observations_spec heapC7 obsC7).1,
   (separate_observations_spec heapC7 obsC7).2 (by decide)⟩
